import Mathlib

/-!
Shallow embedding of the unified-diff parser in `src/index.ts` (`getChanges`)
together with the record types of `src/interfaces.ts`.

Modelling conventions:
* JS strings are modelled as `List Char` internally (`String` at the API
  boundary and inside the records, matching `interfaces.ts`).
* A thrown, uncaught JS exception (`TypeError` on `undefined` access) is
  modelled as `Option.none` of the whole run.
* The JS `Set<Change>` holds freshly allocated object literals, so membership
  is reference equality and no value-based deduplication ever occurs; it is
  modelled as an insertion-ordered `List Change`.
* JS regular expressions are modelled by hand-rolled deterministic matchers;
  the patterns involved (`@@ (-\d+(?:,\d+)? \+\d+(?:,\d+)?) @@` and
  `-(\d+)(?:,(\d+))? \+(\d+)(?:,(\d+))?`) are backtracking-free on every
  input, so the greedy matchers below have exactly the JS semantics.
-/

/-- `interfaces.ts`: one side (old or new) of a hunk. -/
structure FileChange where
  name : String
  start_line : Nat
  line_count : Nat
  content : String
deriving DecidableEq, Repr

/-- `interfaces.ts`: one reconstructed hunk. -/
structure Change where
  fromFile : Option FileChange
  toFile : Option FileChange
deriving DecidableEq, Repr

/-- Decimal digit-string to number, the behaviour of JS `Number` on an
all-digit string. -/
def digitsToNat (l : List Char) : Nat :=
  l.foldl (fun n c => 10 * n + (c.toNat - 48)) 0

/-- JS `Number(group) || 1` where `group` is an optional all-digit capture:
an absent group gives `NaN || 1 = 1`, a zero value gives `0 || 1 = 1`. -/
def jsCount : Option (List Char) → Nat
  | none => 1
  | some ds => if digitsToNat ds = 0 then 1 else digitsToNat ds

/-- `\d+`: one or more digits, greedy. -/
def takeDigits1 (l : List Char) : Option (List Char × List Char) :=
  match l.span (·.isDigit) with
  | ([], _) => none
  | (ds, rest) => some (ds, rest)

/-- `(?:,(\d+))?`: optional comma-then-digits group, greedy; returns the
captured digits (if the group participated) and the rest. -/
def optCommaDigits (l : List Char) : Option (List Char) × List Char :=
  match l with
  | ',' :: rest =>
    (match takeDigits1 rest with
     | some (ds, rest2) => (some ds, rest2)
     | none => (none, l))
  | _ => (none, l)

/-- The four numeric captures of the location pattern
`-(\d+)(?:,(\d+))? \+(\d+)(?:,(\d+))?`. -/
structure LocMatch where
  g1 : List Char
  g2 : Option (List Char)
  g3 : List Char
  g4 : Option (List Char)
deriving DecidableEq, Repr

/-- Match the location pattern at the start of `l`; on success return the
captures and the remaining characters. -/
def matchLocParts (l : List Char) : Option (LocMatch × List Char) :=
  match l with
  | '-' :: r1 =>
    (match takeDigits1 r1 with
     | none => none
     | some (d1, r2) =>
       match optCommaDigits r2 with
       | (c1, r3) =>
         match r3 with
         | ' ' :: '+' :: r4 =>
           (match takeDigits1 r4 with
            | none => none
            | some (d2, r5) =>
              match optCommaDigits r5 with
              | (c2, r6) => some (⟨d1, c1, d2, c2⟩, r6))
         | _ => none)
  | _ => none

/-- JS `String.prototype.match` with `locationRegExp`: first position (left
to right) where the location pattern matches. -/
def findLocMatch : List Char → Option LocMatch
  | [] => none
  | c :: rest =>
    match matchLocParts (c :: rest) with
    | some (m, _) => some m
    | none => findLocMatch rest

/-- The exact text the capture group of the hunk-split regex produced. -/
def locText (m : LocMatch) : List Char :=
  '-' :: m.g1 ++ (match m.g2 with | none => [] | some ds => ',' :: ds)
    ++ ' ' :: '+' :: m.g3
    ++ (match m.g4 with | none => [] | some ds => ',' :: ds)

/-- Match `@@ (-\d+(?:,\d+)? \+\d+(?:,\d+)?) @@` at the start of `l`; on
success return the captured location text and the remaining characters. -/
def matchChunkHeader (l : List Char) : Option (List Char × List Char) :=
  match l with
  | '@' :: '@' :: ' ' :: r =>
    (match matchLocParts r with
     | none => none
     | some (m, r2) =>
       match r2 with
       | ' ' :: '@' :: '@' :: r3 => some (locText m, r3)
       | _ => none)
  | _ => none

/-- Fuelled worker for the JS `split` on the hunk regex: scans left to right,
emitting the text between matches and the capture of each match.  Each step
consumes at least one character, so fuel `l.length` always suffices. -/
def chunkSplitAux : Nat → List Char → List Char → List (List Char)
  | _, [], acc => [acc.reverse]
  | 0, l, acc => [acc.reverse ++ l]
  | fuel + 1, c :: rest, acc =>
    match matchChunkHeader (c :: rest) with
    | some (cap, rest2) => acc.reverse :: cap :: chunkSplitAux fuel rest2 []
    | none => chunkSplitAux fuel rest (c :: acc)

/-- JS `str.split(/@@ (-\d+(?:,\d+)? \+\d+(?:,\d+)?) @@/)`: interleaves the
text between matches with the captured location texts. -/
def chunkSplit (l : List Char) : List (List Char) :=
  chunkSplitAux l.length l []

/-- Fuelled worker for JS `split` on a plain (non-empty) separator string. -/
def splitOnAux (sep : List Char) : Nat → List Char → List Char → List (List Char)
  | _, [], acc => [acc.reverse]
  | 0, l, acc => [acc.reverse ++ l]
  | fuel + 1, c :: rest, acc =>
    if sep.isPrefixOf (c :: rest) then
      acc.reverse :: splitOnAux sep fuel ((c :: rest).drop sep.length) []
    else
      splitOnAux sep fuel rest (c :: acc)

/-- JS `str.split(sep)` for a non-empty plain-string separator. -/
def splitOnChars (sep l : List Char) : List (List Char) :=
  splitOnAux sep l.length l []

/-- JS `str.replace(pat, "")` for a plain string `pat`: remove the first
occurrence only (used for the `--- a/` and `+++ b/` conventions). -/
def removeFirstOcc (pat : List Char) : List Char → List Char
  | [] => []
  | c :: rest =>
    if pat.isPrefixOf (c :: rest) then (c :: rest).drop pat.length
    else c :: removeFirstOcc pat rest

/-- JS `line.replace` with the regex "dash, optional space": delete the
first `-` and at most one space directly after it. -/
def replaceDashOnce : List Char → List Char
  | [] => []
  | '-' :: ' ' :: rest => rest
  | '-' :: rest => rest
  | c :: rest => c :: replaceDashOnce rest

/-- JS `line.replace(/\+ ?/, "")`: delete the first `+` and at most one
space directly after it. -/
def replacePlusOnce : List Char → List Char
  | [] => []
  | '+' :: ' ' :: rest => rest
  | '+' :: rest => rest
  | c :: rest => c :: replacePlusOnce rest

/-- JS `line.replace(/ ? ?/, "")`: the pattern can match empty, so the first
match is at position 0 and greedily takes up to two leading spaces. -/
def stripSpaces2 : List Char → List Char
  | ' ' :: ' ' :: rest => rest
  | ' ' :: rest => rest
  | l => l

/-- JS `lines.join("\n")`. -/
def joinNl : List (List Char) → List Char
  | [] => []
  | [l] => l
  | l :: ls => l ++ '\n' :: joinNl ls

/-- Append one reconstructed line (plus newline) to a fragment's content. -/
def appendContent (f : FileChange) (chars : List Char) : FileChange :=
  { f with content := f.content ++ chars.asString ++ "\n" }

/-- The body of the `while (changedLines.length > 0)` loop of `getChanges`:
one body line updates the pair of optional fragments.  A line whose needed
fragment is absent is skipped (the code logs an error and `continue`s). -/
def processHunkLine (st : Option FileChange × Option FileChange)
    (line : List Char) : Option FileChange × Option FileChange :=
  match line with
  | '-' :: _ =>
    (match st.1 with
     | none => st
     | some f => (some (appendContent f (replaceDashOnce line)), st.2))
  | '+' :: _ =>
    (match st.2 with
     | none => st
     | some t => (st.1, some (appendContent t (replacePlusOnce line))))
  | _ =>
    (match st.1, st.2 with
     | some f, some t =>
       (some (appendContent f (stripSpaces2 line)),
        some (appendContent t (stripSpaces2 line)))
     | _, _ => st)

/-- A freshly allocated fragment: name, parsed start line, parsed count
(defaulted to 1), empty content. -/
def initFrag (name : String) (startG : List Char) (countG : Option (List Char)) :
    FileChange :=
  { name := name, start_line := digitsToNat startG,
    line_count := jsCount countG, content := "" }

/-- One iteration of the hunk loop after the location matched: allocate the
fragments (skipping the added/deleted side), replay the body lines, emit the
record. -/
def processHunk (isAdd isDel : Bool) (fn tn : String) (loc : LocMatch)
    (body : List Char) : Change :=
  let st := (splitOnChars ['\n'] body).foldl processHunkLine
    ((if isAdd then none else some (initFrag fn loc.g1 loc.g2)),
     (if isDel then none else some (initFrag tn loc.g3 loc.g4)))
  { fromFile := st.1, toFile := st.2 }

/-- The `for (let i = 0; i < diffChunks.length; i += 2)` loop.  `loc0` is the
match of the location regexp against `diffChunks[0]` (the code always indexes
chunk 0, not chunk `i`).  When `loc0` matched and the body chunk at `i + 1`
is out of range, `diffChunks[i + 1]` is `undefined` and `.split` throws:
modelled as `none`. -/
def hunkLoopGo (loc0 : Option LocMatch) (isAdd isDel : Bool) (fn tn : String) :
    List (List Char) → Option (List Change)
  | [] => some []
  | [_] =>
    (match loc0 with
     | none => some []
     | some _ => none)
  | _ :: body :: rest =>
    (match loc0 with
     | none => hunkLoopGo loc0 isAdd isDel fn tn rest
     | some loc =>
       (hunkLoopGo loc0 isAdd isDel fn tn rest).map
         (processHunk isAdd isDel fn tn loc body :: ·))

/-- The hunk loop over the filtered chunk list.  `diffChunks[0].match` is
only ever evaluated when at least one iteration runs. -/
def hunkLoop (isAdd isDel : Bool) (fn tn : String)
    (chunks : List (List Char)) : Option (List Change) :=
  match chunks with
  | [] => some []
  | c0 :: _ => hunkLoopGo (findLocMatch c0) isAdd isDel fn tn chunks

/-- `while (!lines[0].startsWith("---")) lines.shift();` — returns the first
line starting with `---` and the lines after it; when no such line exists the
loop empties the array and `lines[0].startsWith` throws (`none`). -/
def skipToHeader : List (List Char) → Option (List Char × List (List Char))
  | [] => none
  | l :: rest =>
    if ("---".data).isPrefixOf l then some (l, rest) else skipToHeader rest

/-- Outcome of the per-file header phase. -/
inductive HeaderResult where
  | crash : HeaderResult
  | missingName : HeaderResult
  | ok : String → String → List (List Char) → HeaderResult
deriving DecidableEq, Repr

/-- Header phase of a file section: split into non-empty lines, skip to the
`---` line, read the two name lines (stripping the `--- a/` / `+++ b/`
conventions).  `crash` models the unguarded while loop running off the end of
the array; `missingName` models `toFileName === undefined` (error logged,
section skipped). -/
def parseSectionHead (fileDiff : List Char) : HeaderResult :=
  match skipToHeader ((splitOnChars ['\n'] fileDiff).filter (fun l => !l.isEmpty)) with
  | none => .crash
  | some (l1, rest1) =>
    match rest1 with
    | [] => .missingName
    | l2 :: rest2 =>
      .ok (removeFirstOcc ("--- a/".data) l1).asString
        (removeFirstOcc ("+++ b/".data) l2).asString rest2

/-- One file section of the diff: header phase, added/deleted classification,
hunk split, hunk loop. -/
def processFileDiff (fileDiff : List Char) : Option (List Change) :=
  match parseSectionHead fileDiff with
  | .crash => none
  | .missingName => some []
  | .ok fromFileName toFileName rest =>
    hunkLoop (fromFileName == "/dev/null")
      (!(fromFileName == "/dev/null") && (toFileName == "/dev/null"))
      fromFileName toFileName
      ((chunkSplit (joinNl rest)).filter (fun l => !l.isEmpty))

/-- All file sections in order, accumulating into the one `Set`; an uncaught
exception in any section aborts the whole call with nothing returned. -/
def processSections : List (List Char) → Option (List Change)
  | [] => some []
  | s :: rest =>
    match processFileDiff s with
    | none => none
    | some l => (processSections rest).map (l ++ ·)

/-- `diffOut.split("diff --git").filter((n) => n)`. -/
def sectionsOf (diffOut : String) : List (List Char) :=
  (splitOnChars ("diff --git".data) diffOut.data).filter (fun l => !l.isEmpty)

/-- The parsing part of `getChanges`: from the raw diff text to the returned
collection.  `none` models an uncaught exception escaping the call. -/
def getChanges (diffOut : String) : Option (List Change) :=
  if diffOut = "" then some []
  else processSections (sectionsOf diffOut)

/-- The old-file name the header phase extracted for a section, when it got
that far. -/
def sectionFromName (s : List Char) : Option String :=
  match parseSectionHead s with
  | .ok f _ _ => some f
  | _ => none

/-- The new-file name the header phase extracted for a section, when it got
that far. -/
def sectionToName (s : List Char) : Option String :=
  match parseSectionHead s with
  | .ok _ t _ => some t
  | _ => none

/-- The filtered hunk-chunk list of a section whose header phase succeeded. -/
def sectionChunkList (s : List Char) : Option (List (List Char)) :=
  match parseSectionHead s with
  | .ok _ _ rest => some ((chunkSplit (joinNl rest)).filter (fun l => !l.isEmpty))
  | _ => none

/-- A section is well formed when its headers parse and its hunk split is a
proper alternation: an even number of chunks whose first element (when any)
matches the location regexp. -/
def sectionWF (s : List Char) : Bool :=
  match sectionChunkList s with
  | none => false
  | some cs =>
    cs.length % 2 == 0 && (cs.isEmpty || (findLocMatch (cs.headD [])).isSome)

/-- Number of (location, body) chunk pairs of a section. -/
def sectionHunkCount (s : List Char) : Nat :=
  match sectionChunkList s with
  | none => 0
  | some cs => cs.length / 2

/-! ### Concrete inputs used to evaluate the parser at specific points -/

/-- One file section with two hunks whose headers carry different numbers. -/
def diffTwoHunks : String :=
  "diff --git a/f b/f\n--- a/f\n+++ b/f\n@@ -1,2 +1,2 @@\n-a\n+b\n@@ -10,3 +10,4 @@\n-c\n+d\n x\n"

/-- First file section has no `---` header line; a well-formed section follows. -/
def diffNoOldHeader : String :=
  "diff --git a/f b/f\ngarbage line\ndiff --git a/g b/g\n--- a/g\n+++ b/g\n@@ -1 +1 @@\n-x\n+y\n"

/-- A hunk location header with no body at all ends the section. -/
def diffEmptyHunkBody : String :=
  "diff --git a/f b/f\n--- a/f\n+++ b/f\n@@ -1 +1 @@"

/-- Two byte-identical file sections. -/
def diffTwinSections : String :=
  "diff --git a/f b/f\n--- a/f\n+++ b/f\n@@ -1 +1 @@\n-x\ndiff --git a/f b/f\n--- a/f\n+++ b/f\n@@ -1 +1 @@\n-x\n"

/-- Two sections holding two hunks and one hunk respectively. -/
def diffThreeHunks : String :=
  "diff --git a/f b/f\n--- a/f\n+++ b/f\n@@ -1 +1 @@\n-x\n+y\n@@ -5,2 +5,3 @@\n x\ndiff --git a/g b/g\n--- a/g\n+++ b/g\n@@ -2 +2 @@\n-z\n"

/-- A file section whose old and new names both parse to `/dev/null`. -/
def secBothDevNull : List Char :=
  (" a//dev/null b//dev/null\n--- a//dev/null\n+++ b//dev/null\n@@ -1 +1 @@\n+x").data

/-- A file section whose old name parses to `/dev/null` (added file). -/
def secAddedDevNull : List Char :=
  (" a//dev/null b/f\n--- a//dev/null\n+++ b/f\n@@ -1 +1 @@\n+x").data

/-- A simple one-hunk modification diff. -/
def diffSimple : String :=
  "diff --git a/f b/f\n--- a/f\n+++ b/f\n@@ -1 +1 @@\n-x\n+y\n"

/-- A diff whose hunk header carries an explicit old count of 0. -/
def diffZeroCount : String :=
  "diff --git a/f b/f\n--- a/f\n+++ b/f\n@@ -10,0 +11,2 @@\n+x\n+y\n"

/-! ### Helper lemmas -/

theorem processHunkLine_fst_none (st : Option FileChange × Option FileChange)
    (line : List Char) (h : st.1 = none) : (processHunkLine st line).1 = none := by
  unfold processHunkLine
  split <;> simp_all
  split <;> simp_all

theorem processHunkLine_snd_none (st : Option FileChange × Option FileChange)
    (line : List Char) (h : st.2 = none) : (processHunkLine st line).2 = none := by
  unfold processHunkLine
  split <;> simp_all
  split <;> simp_all

theorem processHunkLine_fst_some (st : Option FileChange × Option FileChange)
    (line : List Char) (f : FileChange) (h : st.1 = some f) :
    ∃ f2, (processHunkLine st line).1 = some f2 ∧ f2.name = f.name ∧
      f2.start_line = f.start_line ∧ f2.line_count = f.line_count := by
  unfold processHunkLine
  split <;> (split <;> simp_all [appendContent])

theorem processHunkLine_snd_some (st : Option FileChange × Option FileChange)
    (line : List Char) (t : FileChange) (h : st.2 = some t) :
    ∃ t2, (processHunkLine st line).2 = some t2 ∧ t2.name = t.name ∧
      t2.start_line = t.start_line ∧ t2.line_count = t.line_count := by
  unfold processHunkLine
  split <;> (split <;> simp_all [appendContent])

theorem foldl_processHunkLine_fst_none :
    ∀ (lines : List (List Char)) (st : Option FileChange × Option FileChange),
      st.1 = none → (lines.foldl processHunkLine st).1 = none := by
  intro lines
  induction lines with
  | nil => intro st h; simpa using h
  | cons l ls ih =>
    intro st h
    simp only [List.foldl_cons]
    exact ih _ (processHunkLine_fst_none st l h)

theorem foldl_processHunkLine_snd_none :
    ∀ (lines : List (List Char)) (st : Option FileChange × Option FileChange),
      st.2 = none → (lines.foldl processHunkLine st).2 = none := by
  intro lines
  induction lines with
  | nil => intro st h; simpa using h
  | cons l ls ih =>
    intro st h
    simp only [List.foldl_cons]
    exact ih _ (processHunkLine_snd_none st l h)

theorem foldl_processHunkLine_fst_some :
    ∀ (lines : List (List Char)) (st : Option FileChange × Option FileChange)
      (f : FileChange), st.1 = some f →
      ∃ f2, (lines.foldl processHunkLine st).1 = some f2 ∧ f2.name = f.name ∧
        f2.start_line = f.start_line ∧ f2.line_count = f.line_count := by
  intro lines
  induction lines with
  | nil => intro st f h; exact ⟨f, by simpa using h, rfl, rfl, rfl⟩
  | cons l ls ih =>
    intro st f h
    obtain ⟨f1, h1, hn, hs, hc⟩ := processHunkLine_fst_some st l f h
    obtain ⟨f2, h2, hn2, hs2, hc2⟩ := ih (processHunkLine st l) f1 h1
    exact ⟨f2, by simpa using h2, by rw [hn2, hn], by rw [hs2, hs], by rw [hc2, hc]⟩

theorem foldl_processHunkLine_snd_some :
    ∀ (lines : List (List Char)) (st : Option FileChange × Option FileChange)
      (t : FileChange), st.2 = some t →
      ∃ t2, (lines.foldl processHunkLine st).2 = some t2 ∧ t2.name = t.name ∧
        t2.start_line = t.start_line ∧ t2.line_count = t.line_count := by
  intro lines
  induction lines with
  | nil => intro st t h; exact ⟨t, by simpa using h, rfl, rfl, rfl⟩
  | cons l ls ih =>
    intro st t h
    obtain ⟨t1, h1, hn, hs, hc⟩ := processHunkLine_snd_some st l t h
    obtain ⟨t2, h2, hn2, hs2, hc2⟩ := ih (processHunkLine st l) t1 h1
    exact ⟨t2, by simpa using h2, by rw [hn2, hn], by rw [hs2, hs], by rw [hc2, hc]⟩

theorem hunkLoopGo_none_loc (isAdd isDel : Bool) (fn tn : String) :
    ∀ chunks, hunkLoopGo none isAdd isDel fn tn chunks = some [] := by
  intro chunks
  induction chunks using hunkLoopGo.induct none isAdd isDel fn tn <;>
    simp_all [hunkLoopGo]

theorem hunkLoopGo_mem (isAdd isDel : Bool) (fn tn : String) (loc : LocMatch) :
    ∀ chunks l c, hunkLoopGo (some loc) isAdd isDel fn tn chunks = some l →
      c ∈ l → ∃ body, c = processHunk isAdd isDel fn tn loc body := by
  intro chunks
  induction chunks using hunkLoopGo.induct (some loc) isAdd isDel fn tn with
  | case1 =>
    intro l c hrun hmem
    simp only [hunkLoopGo] at hrun
    obtain rfl : ([] : List Change) = l := Option.some_injective _ hrun
    simp at hmem
  | case2 x h => exact absurd h (by simp)
  | case3 x val h =>
    intro l c hrun hmem
    simp [hunkLoopGo] at hrun
  | case4 x body rest h ih => exact absurd h (by simp)
  | case5 x body rest val h ih =>
    intro l c hrun hmem
    simp only [hunkLoopGo, Option.map_eq_some'] at hrun
    obtain ⟨l', hl', rfl⟩ := hrun
    rcases List.mem_cons.mp hmem with rfl | hmem'
    · exact ⟨body, rfl⟩
    · exact ih l' c hl' hmem'

theorem hunkLoopGo_count (isAdd isDel : Bool) (fn tn : String) (loc : LocMatch) :
    ∀ (k : Nat) (chunks : List (List Char)), chunks.length = 2 * k →
      (hunkLoopGo (some loc) isAdd isDel fn tn chunks).map List.length = some k := by
  intro k
  induction k with
  | zero =>
    intro chunks h
    obtain rfl : chunks = [] := List.length_eq_zero.mp (by omega)
    simp [hunkLoopGo]
  | succ k ih =>
    intro chunks h
    match chunks with
    | [] => simp at h
    | [a] => simp at h; omega
    | a :: b :: rest =>
      have hlen : rest.length = 2 * k := by simp at h; omega
      have hrec := ih rest hlen
      simp only [hunkLoopGo]
      cases hres : hunkLoopGo (some loc) isAdd isDel fn tn rest with
      | none => rw [hres] at hrec; simp at hrec
      | some l' =>
        rw [hres] at hrec
        simp only [Option.map_some', Option.some.injEq] at hrec
        simp [hrec]

theorem jsCount_pos (g : Option (List Char)) : 1 ≤ jsCount g := by
  unfold jsCount
  cases g with
  | none => simp
  | some ds =>
    by_cases h : digitsToNat ds = 0 <;> simp [h]
    omega

theorem processHunk_fromFile_none (isDel : Bool) (fn tn : String)
    (loc : LocMatch) (body : List Char) :
    (processHunk true isDel fn tn loc body).fromFile = none := by
  unfold processHunk
  exact foldl_processHunkLine_fst_none _ _ rfl

theorem processHunk_toFile_none (isAdd : Bool) (fn tn : String)
    (loc : LocMatch) (body : List Char) :
    (processHunk isAdd true fn tn loc body).toFile = none := by
  unfold processHunk
  exact foldl_processHunkLine_snd_none _ _ rfl

theorem processHunk_fromFile_some (isDel : Bool) (fn tn : String)
    (loc : LocMatch) (body : List Char) :
    ∃ f, (processHunk false isDel fn tn loc body).fromFile = some f ∧
      f.name = fn ∧ f.start_line = digitsToNat loc.g1 ∧
      f.line_count = jsCount loc.g2 := by
  unfold processHunk
  obtain ⟨f2, h2, hn, hs, hc⟩ := foldl_processHunkLine_fst_some
    (splitOnChars ['\n'] body)
    ((some (initFrag fn loc.g1 loc.g2)),
     (if isDel then none else some (initFrag tn loc.g3 loc.g4)))
    (initFrag fn loc.g1 loc.g2) rfl
  exact ⟨f2, h2, hn, hs, hc⟩

theorem processHunk_toFile_some (isAdd : Bool) (fn tn : String)
    (loc : LocMatch) (body : List Char) :
    ∃ t, (processHunk isAdd false fn tn loc body).toFile = some t ∧
      t.name = tn ∧ t.start_line = digitsToNat loc.g3 ∧
      t.line_count = jsCount loc.g4 := by
  unfold processHunk
  obtain ⟨t2, h2, hn, hs, hc⟩ := foldl_processHunkLine_snd_some
    (splitOnChars ['\n'] body)
    ((if isAdd then none else some (initFrag fn loc.g1 loc.g2)),
     (some (initFrag tn loc.g3 loc.g4)))
    (initFrag tn loc.g3 loc.g4) rfl
  exact ⟨t2, h2, hn, hs, hc⟩

theorem processFileDiff_mem (s : List Char) (l : List Change) (c : Change)
    (hrun : processFileDiff s = some l) (hmem : c ∈ l) :
    ∃ (fn tn : String) (rest : List (List Char)) (loc : LocMatch) (body : List Char),
      parseSectionHead s = .ok fn tn rest ∧
      c = processHunk (fn == "/dev/null")
        (!(fn == "/dev/null") && (tn == "/dev/null")) fn tn loc body := by
  unfold processFileDiff at hrun
  split at hrun
  · simp at hrun
  · obtain rfl : ([] : List Change) = l := Option.some_injective _ hrun
    simp at hmem
  · rename_i fn tn rest hh
    unfold hunkLoop at hrun
    split at hrun
    · obtain rfl : ([] : List Change) = l := Option.some_injective _ hrun
      simp at hmem
    · rename_i c0 cs hcs
      cases hloc : findLocMatch c0 with
      | none =>
        rw [hloc, hunkLoopGo_none_loc] at hrun
        obtain rfl : ([] : List Change) = l := Option.some_injective _ hrun
        simp at hmem
      | some loc =>
        rw [hloc] at hrun
        obtain ⟨body, hbody⟩ := hunkLoopGo_mem _ _ fn tn loc _ l c hrun hmem
        exact ⟨fn, tn, rest, loc, body, hh, hbody⟩

theorem processSections_mem :
    ∀ (secs : List (List Char)) (l : List Change) (c : Change),
      processSections secs = some l → c ∈ l →
      ∃ s ∈ secs, ∃ ls, processFileDiff s = some ls ∧ c ∈ ls := by
  intro secs
  induction secs with
  | nil =>
    intro l c hrun hmem
    simp only [processSections] at hrun
    obtain rfl : ([] : List Change) = l := Option.some_injective _ hrun
    simp at hmem
  | cons s rest ih =>
    intro l c hrun hmem
    simp only [processSections] at hrun
    cases hs : processFileDiff s with
    | none => rw [hs] at hrun; simp at hrun
    | some ls =>
      rw [hs] at hrun
      simp only [Option.map_eq_some'] at hrun
      obtain ⟨l', hl', rfl⟩ := hrun
      rcases List.mem_append.mp hmem with h1 | h2
      · exact ⟨s, by simp, ls, hs, h1⟩
      · obtain ⟨s', hs', ls', hrun', hmem'⟩ := ih l' c hl' h2
        exact ⟨s', by simp [hs'], ls', hrun', hmem'⟩

theorem hunkLoop_count (isAdd isDel : Bool) (fn tn : String)
    (cs : List (List Char)) (heven : cs.length % 2 = 0)
    (hhead : cs.isEmpty || (findLocMatch (cs.headD [])).isSome) :
    (hunkLoop isAdd isDel fn tn cs).map List.length = some (cs.length / 2) := by
  cases cs with
  | nil => simp [hunkLoop]
  | cons c0 cs' =>
    simp only [List.isEmpty_cons, Bool.false_or, List.headD_cons] at hhead
    obtain ⟨loc, hloc⟩ := Option.isSome_iff_exists.mp hhead
    simp only [hunkLoop]
    rw [hloc]
    exact hunkLoopGo_count _ _ fn tn loc _ _ (by omega)

theorem parseSectionHead_ok_processFileDiff (s : List Char) (fn tn : String)
    (rest : List (List Char)) (hh : parseSectionHead s = .ok fn tn rest) :
    processFileDiff s = hunkLoop (fn == "/dev/null")
      (!(fn == "/dev/null") && (tn == "/dev/null")) fn tn
      ((chunkSplit (joinNl rest)).filter (fun l => !l.isEmpty)) := by
  unfold processFileDiff
  rw [hh]

theorem sectionWF_count (s : List Char) (hwf : sectionWF s = true) :
    (processFileDiff s).map List.length = some (sectionHunkCount s) := by
  unfold sectionWF at hwf
  cases hc : sectionChunkList s with
  | none => rw [hc] at hwf; simp at hwf
  | some cs =>
    rw [hc] at hwf
    simp only [Bool.and_eq_true, beq_iff_eq] at hwf
    obtain ⟨heven, hhead⟩ := hwf
    have hcount : sectionHunkCount s = cs.length / 2 := by
      unfold sectionHunkCount
      rw [hc]
    have hc2 := hc
    unfold sectionChunkList at hc2
    cases hh : parseSectionHead s with
    | crash => rw [hh] at hc2; simp at hc2
    | missingName => rw [hh] at hc2; simp at hc2
    | ok fn tn rest =>
      rw [hh] at hc2
      simp only [Option.some.injEq] at hc2
      rw [parseSectionHead_ok_processFileDiff s fn tn rest hh, hc2, hcount]
      exact hunkLoop_count _ _ fn tn cs heven hhead

theorem processSections_count :
    ∀ (secs : List (List Char)), (∀ s ∈ secs, sectionWF s = true) →
      (processSections secs).map List.length =
        some ((secs.map sectionHunkCount).sum) := by
  intro secs
  induction secs with
  | nil => intro _; simp [processSections]
  | cons s rest ih =>
    intro hall
    have hs := sectionWF_count s (hall s (by simp))
    have hrest := ih (fun x hx => hall x (by simp [hx]))
    simp only [processSections]
    cases h1 : processFileDiff s with
    | none => rw [h1] at hs; simp at hs
    | some ls =>
      rw [h1] at hs
      simp only [Option.map_some', Option.some.injEq] at hs
      cases h2 : processSections rest with
      | none => rw [h2] at hrest; simp at hrest
      | some lr =>
        rw [h2] at hrest
        simp only [Option.map_some', Option.some.injEq] at hrest
        simp [hs, hrest]

/-! ### Claims -/

/-- Claim C9: for the empty raw-diff input string, `getChanges` returns an
empty collection and does not signal an error. -/
theorem getChanges_empty_input : getChanges "" = some [] := rfl

/-- Claim C1 (refuted by the code): the hunk loop reads the location from
`diffChunks[0]` for every iteration, so in a two-hunk section the second
record carries the first hunk's numbers: here both records report
start/count (1,2) although the second hunk's header says `-10,3 +10,4`. -/
theorem getChanges_second_hunk_reuses_first_header :
    (getChanges diffTwoHunks).map (List.map fun c =>
      (c.fromFile.map fun f => (f.start_line, f.line_count),
       c.toFile.map fun f => (f.start_line, f.line_count)))
    = some [(some (1, 2), some (1, 2)), (some (1, 2), some (1, 2))] := by
  decide

/-- Claim C3 (refuted by the code): a file segment with no old-file header
line makes the header-skipping loop run off the end of the line array, which
throws and aborts the whole run — the later well-formed segment is lost too,
instead of the bad segment being skipped. -/
theorem getChanges_missing_old_header_aborts :
    getChanges diffNoOldHeader = none := by decide

/-- Claim C6 (refuted by the code): a hunk whose location header is the last
text of its section has no body chunk, `diffChunks[i + 1]` is undefined and
the run aborts instead of emitting an empty-content record. -/
theorem getChanges_empty_hunk_body_aborts :
    getChanges diffEmptyHunkBody = none := by decide

/-- Claim C4, counterexample to the deduplication clause: two byte-identical
sections produce two value-equal records and both are kept — the JS `Set`
holds fresh object literals and compares by reference, so the returned
collection is not deduplicating under value equality (it would otherwise
hold one record here). -/
theorem getChanges_duplicate_records_kept :
    getChanges diffTwinSections =
      some [⟨some ⟨"f", 1, 1, "\nx\n"⟩, some ⟨"f", 1, 1, "\n"⟩⟩,
            ⟨some ⟨"f", 1, 1, "\nx\n"⟩, some ⟨"f", 1, 1, "\n"⟩⟩] := by
  decide

/-- Claim C4 as amended: for a non-empty raw diff whose sections all split
into a proper alternation of location and body chunks, the returned
collection holds exactly the sum over sections of their hunk-pair counts
(duplicates included; no value-based deduplication takes place). -/
theorem getChanges_count_eq_sum_hunks (diffOut : String) (hne : diffOut ≠ "")
    (hwf : (sectionsOf diffOut).all sectionWF = true) :
    (getChanges diffOut).map List.length =
      some (((sectionsOf diffOut).map sectionHunkCount).sum) := by
  unfold getChanges
  rw [if_neg hne]
  exact processSections_count _ (fun s hs => by
    have := List.all_eq_true.mp hwf s hs
    simpa using this)

theorem getChanges_count_eq_sum_hunks_witness :
    diffThreeHunks ≠ "" ∧ (sectionsOf diffThreeHunks).all sectionWF = true ∧
    (getChanges diffThreeHunks).map List.length =
      some (((sectionsOf diffThreeHunks).map sectionHunkCount).sum) :=
  ⟨by decide, by decide,
    getChanges_count_eq_sum_hunks diffThreeHunks (by decide) (by decide)⟩

/-- Claim C2, counterexample to the symmetric clause: when the old and the
new name both parse to `/dev/null`, the deleted classification is never
reached (it sits in an `else if` behind the added one), so `toFile` is
present although the new-file name is the null-device sentinel. -/
theorem devnull_both_sides_toFile_present :
    sectionToName secBothDevNull = some "/dev/null" ∧
    processFileDiff secBothDevNull =
      some [⟨none, some ⟨"/dev/null", 1, 1, "x\n"⟩⟩] := by
  constructor
  · decide
  · decide

/-- Claim C2 as amended: in every record of a section whose old name parses
to `/dev/null`, `fromFile` is absent; and in every record of a section whose
new name parses to `/dev/null` while the old name does not, `toFile` is
absent. -/
theorem processFileDiff_devnull_fragments_absent (s : List Char)
    (l : List Change) (c : Change) (hrun : processFileDiff s = some l)
    (hmem : c ∈ l) :
    (sectionFromName s = some "/dev/null" → c.fromFile = none) ∧
    (sectionFromName s ≠ some "/dev/null" →
      sectionToName s = some "/dev/null" → c.toFile = none) := by
  obtain ⟨fn, tn, rest, loc, body, hh, rfl⟩ := processFileDiff_mem s l c hrun hmem
  have hfrom : sectionFromName s = some fn := by
    unfold sectionFromName
    rw [hh]
  have hto : sectionToName s = some tn := by
    unfold sectionToName
    rw [hh]
  constructor
  · intro h
    rw [hfrom, Option.some.injEq] at h
    subst h
    simp only [beq_self_eq_true]
    exact processHunk_fromFile_none _ _ _ _ _
  · intro hneq h
    rw [hto, Option.some.injEq] at h
    subst h
    have hfn : fn ≠ "/dev/null" := by
      intro hcontra
      exact hneq (by rw [hfrom, hcontra])
    have hb : (fn == "/dev/null") = false := by
      simpa using hfn
    simp only [hb, Bool.not_false, beq_self_eq_true, Bool.and_self, Bool.true_and]
    exact processHunk_toFile_none _ _ _ _ _

theorem processFileDiff_devnull_fragments_absent_witness :
    processFileDiff secAddedDevNull = some [⟨none, some ⟨"f", 1, 1, "x\n"⟩⟩] ∧
    sectionFromName secAddedDevNull = some "/dev/null" ∧
    (⟨none, some ⟨"f", 1, 1, "x\n"⟩⟩ : Change).fromFile = none :=
  ⟨by decide, by decide,
    (processFileDiff_devnull_fragments_absent secAddedDevNull
      [⟨none, some ⟨"f", 1, 1, "x\n"⟩⟩] ⟨none, some ⟨"f", 1, 1, "x\n"⟩⟩
      (by decide) (by decide)).1 (by decide)⟩

/-- Claim C5: replaying the body lines " ctx", "-old", "+new" over a pair of
freshly allocated fragments yields from-content "ctx\nold\n" and to-content
"ctx\nnew\n": the context line goes to both sides, the removed line only to
the from side, the added line only to the to side, each newline-terminated. -/
theorem hunk_body_reconstruction (n1 n2 : String) (s1 c1 s2 c2 : Nat) :
    [" ctx".data, "-old".data, "+new".data].foldl processHunkLine
      (some ⟨n1, s1, c1, ""⟩, some ⟨n2, s2, c2, ""⟩)
    = (some ⟨n1, s1, c1, "ctx\nold\n"⟩, some ⟨n2, s2, c2, "ctx\nnew\n"⟩) := rfl

/-- Claim C8: a removed-marker body line arriving while the from-fragment is
absent (and symmetrically an added-marker line while the to-fragment is
absent) leaves the state unchanged — only that line is skipped, the rest of
the body is still replayed — and the hunk loop still emits a record for the
hunk in front of whatever the remaining chunks produce. -/
theorem orphan_marker_line_skipped :
    (∀ (toF : Option FileChange) (cs : List Char) (rest : List (List Char)),
      (('-' :: cs) :: rest).foldl processHunkLine (none, toF)
        = rest.foldl processHunkLine (none, toF)) ∧
    (∀ (fromF : Option FileChange) (cs : List Char) (rest : List (List Char)),
      (('+' :: cs) :: rest).foldl processHunkLine (fromF, none)
        = rest.foldl processHunkLine (fromF, none)) ∧
    (∀ (loc : LocMatch) (isAdd isDel : Bool) (fn tn : String)
      (c0 body : List Char) (rest : List (List Char)),
      hunkLoopGo (some loc) isAdd isDel fn tn (c0 :: body :: rest)
        = (hunkLoopGo (some loc) isAdd isDel fn tn rest).map
            (processHunk isAdd isDel fn tn loc body :: ·)) :=
  ⟨fun toF cs rest => rfl, fun fromF cs rest => rfl,
   fun loc isAdd isDel fn tn c0 body rest => by simp [hunkLoopGo]⟩

/-- Claim C7: every record in a returned collection has at least one of
`fromFile`/`toFile` present — the added and deleted classifications are
mutually exclusive, so at least one fragment is allocated before the record
is emitted. -/
theorem getChanges_record_has_fragment (diffOut : String) (l : List Change)
    (c : Change) (hrun : getChanges diffOut = some l) (hmem : c ∈ l) :
    c.fromFile.isSome = true ∨ c.toFile.isSome = true := by
  unfold getChanges at hrun
  by_cases hd : diffOut = ""
  · rw [if_pos hd] at hrun
    obtain rfl : ([] : List Change) = l := Option.some_injective _ hrun
    simp at hmem
  · rw [if_neg hd] at hrun
    obtain ⟨s, hsmem, ls, hls, hcmem⟩ := processSections_mem _ l c hrun hmem
    obtain ⟨fn, tn, rest, loc, body, hh, rfl⟩ := processFileDiff_mem s ls c hls hcmem
    cases hb : (fn == "/dev/null") with
    | false =>
      left
      obtain ⟨f, hf, _⟩ := processHunk_fromFile_some
        (tn == "/dev/null") fn tn loc body
      simp [hf]
    | true =>
      right
      obtain ⟨t, ht, _⟩ := processHunk_toFile_some true fn tn loc body
      simp only [Bool.not_true, Bool.false_and]
      simp [ht]

theorem getChanges_record_has_fragment_witness :
    getChanges diffSimple =
      some [⟨some ⟨"f", 1, 1, "\nx\n"⟩, some ⟨"f", 1, 1, "\ny\n"⟩⟩] ∧
    ((⟨some ⟨"f", 1, 1, "\nx\n"⟩, some ⟨"f", 1, 1, "\ny\n"⟩⟩ : Change).fromFile.isSome = true ∨
     (⟨some ⟨"f", 1, 1, "\nx\n"⟩, some ⟨"f", 1, 1, "\ny\n"⟩⟩ : Change).toFile.isSome = true) :=
  ⟨by decide,
    getChanges_record_has_fragment diffSimple
      [⟨some ⟨"f", 1, 1, "\nx\n"⟩, some ⟨"f", 1, 1, "\ny\n"⟩⟩]
      ⟨some ⟨"f", 1, 1, "\nx\n"⟩, some ⟨"f", 1, 1, "\ny\n"⟩⟩
      (by decide) (by decide)⟩

/-- Claim C10: every fragment placed in a returned record has a line count
of at least 1 — the location header's count goes through `Number(g) || 1`,
which maps both an omitted and an explicit `0` count to 1. -/
theorem getChanges_line_count_pos (diffOut : String) (l : List Change)
    (c : Change) (f : FileChange) (hrun : getChanges diffOut = some l)
    (hmem : c ∈ l) (hf : c.fromFile = some f ∨ c.toFile = some f) :
    1 ≤ f.line_count := by
  unfold getChanges at hrun
  by_cases hd : diffOut = ""
  · rw [if_pos hd] at hrun
    obtain rfl : ([] : List Change) = l := Option.some_injective _ hrun
    simp at hmem
  · rw [if_neg hd] at hrun
    obtain ⟨s, hsmem, ls, hls, hcmem⟩ := processSections_mem _ l c hrun hmem
    obtain ⟨fn, tn, rest, loc, body, hh, rfl⟩ := processFileDiff_mem s ls c hls hcmem
    rcases hf with hf | hf
    · cases hb : (fn == "/dev/null") with
      | true =>
        rw [hb] at hf
        rw [processHunk_fromFile_none _ _ _ _ _] at hf
        simp at hf
      | false =>
        rw [hb] at hf
        obtain ⟨f2, hf2, _, _, hc2⟩ := processHunk_fromFile_some
          (!false && (tn == "/dev/null")) fn tn loc body
        rw [hf2, Option.some.injEq] at hf
        subst hf
        rw [hc2]
        exact jsCount_pos _
    · cases hb : (!(fn == "/dev/null") && (tn == "/dev/null")) with
      | true =>
        rw [hb] at hf
        rw [processHunk_toFile_none _ _ _ _ _] at hf
        simp at hf
      | false =>
        rw [hb] at hf
        obtain ⟨t2, ht2, _, _, hc2⟩ := processHunk_toFile_some
          (fn == "/dev/null") fn tn loc body
        rw [ht2, Option.some.injEq] at hf
        subst hf
        rw [hc2]
        exact jsCount_pos _

theorem getChanges_line_count_pos_witness :
    getChanges diffZeroCount =
      some [⟨some ⟨"f", 10, 1, "\n"⟩, some ⟨"f", 11, 2, "\nx\ny\n"⟩⟩] ∧
    1 ≤ (⟨"f", 10, 1, "\n"⟩ : FileChange).line_count :=
  ⟨by decide,
    getChanges_line_count_pos diffZeroCount
      [⟨some ⟨"f", 10, 1, "\n"⟩, some ⟨"f", 11, 2, "\nx\ny\n"⟩⟩]
      ⟨some ⟨"f", 10, 1, "\n"⟩, some ⟨"f", 11, 2, "\nx\ny\n"⟩⟩
      ⟨"f", 10, 1, "\n"⟩ (by decide) (by decide) (Or.inl (by decide))⟩
